import Mathlib

/-!
Verification of the merge-operator core of an LSM-tree storage engine
(`src/merge_operator.rs`).

The Rust source defines:
  * `MergeResult` — `Success(UserValue)` or `Failure`;
  * the `MergeOperator` trait with a mandatory `full_merge`, an optional
    `partial_merge` whose default body returns `None`, and a `name`;
  * a reference operator `CounterMerge` (the doc example on the trait):
    its `full_merge` parses the base value as an `i64` (defaulting to 0 when
    the base is absent or unparseable) and then adds, oldest to newest, every
    operand that parses as an `i64`, silently skipping operands that do not
    parse; it always returns `Success` of the decimal string of the counter.

Modelling choices, each justified against the source:
  * `UserKey`/`UserValue` are opaque byte sequences in the source; operands
    reach arithmetic only through `std::str::from_utf8(..).ok().and_then(parse)`.
    We model values as `String`; a byte sequence that is not valid UTF-8 and a
    string that does not parse both take the same skip path, so every
    behaviour the claims mention is represented.
  * Rust's `str::parse::<i64>` is modelled by `parseI64`: an optional single
    sign character followed by one or more ASCII digits, magnitude within the
    `i64` range, nothing else accepted.
  * `i64` addition (`counter += delta`) wraps modulo 2^64 in release builds;
    we model it by `i64Add`, two's-complement wrapping on `Int`.
  * `i64::to_string` is modelled by `intToDecimalString`: canonical decimal
    digits, a leading `-` for negative values, no leading zeros, no `+`.
-/

/-- Keys are opaque byte sequences in the source, used only as a lookup token. -/
abbrev UserKey := String

/-- Values (base values and merge operands) are opaque byte sequences. -/
abbrev UserValue := String

/-- Result of a merge operation (`MergeResult` in the source). -/
inductive MergeResult where
  | Success : UserValue → MergeResult
  | Failure : MergeResult
deriving DecidableEq, Repr

/-- The `MergeOperator` trait: a named operator with a mandatory `full_merge`
and an optional `partial_merge` whose default body returns `None`. -/
structure MergeOperator where
  name : String
  full_merge : UserKey → Option UserValue → List UserValue → MergeResult
  partial_merge : UserKey → UserValue → UserValue → Option UserValue :=
    fun _ _ _ => none

/-- The default body of `MergeOperator::partial_merge` in the source:
it returns `None` for every key and every pair of operands. -/
def default_partial_merge (_key : UserKey) (_left _right : UserValue) :
    Option UserValue :=
  none

/-- Smallest `i64` value, -2^63. -/
def i64Min : Int := -(2 ^ 63)

/-- Largest `i64` value, 2^63 - 1. -/
def i64Max : Int := 2 ^ 63 - 1

/-- Big-endian decimal digit characters to a natural number, as consumed by
`str::parse` digit by digit. -/
def digitsToNat (ds : List Char) : Nat :=
  ds.foldl (fun a c => 10 * a + (c.toNat - 48)) 0

/-- The signed value of a digit run: its magnitude, negated when the parsed
sign was `-`. -/
def signedVal (neg : Bool) (ds : List Char) : Int :=
  if neg then -Int.ofNat (digitsToNat ds) else Int.ofNat (digitsToNat ds)

/-- The digits part of `str::parse::<i64>` after the optional sign has been
consumed (`neg` records a leading `-`): one or more ASCII digits whose signed
value fits in the `i64` range, anything else rejected. -/
def parseSignedDigits (neg : Bool) (ds : List Char) : Option Int :=
  if ds.isEmpty then none
  else if ds.all Char.isDigit then
    if i64Min ≤ signedVal neg ds ∧ signedVal neg ds ≤ i64Max then
      some (signedVal neg ds)
    else none
  else none

/-- Rust's `str::parse::<i64>` on the character list of the input: an optional
single `+`/`-` sign, then one or more ASCII digits, value within the `i64`
range; anything else is rejected. -/
def parseI64Chars : List Char → Option Int
  | [] => none
  | c :: cs =>
    if c = '-' then parseSignedDigits true cs
    else if c = '+' then parseSignedDigits false cs
    else parseSignedDigits false (c :: cs)

/-- `std::str::from_utf8(v).ok().and_then(|s| s.parse::<i64>().ok())` of the
source, on the `String` model of values. -/
def parseI64 (s : String) : Option Int :=
  parseI64Chars s.data

/-- Two's-complement reduction of an integer into the `i64` range, the value
`counter` holds after a wrapping `i64` addition. -/
def wrap64 (x : Int) : Int :=
  (x + 2 ^ 63) % 2 ^ 64 - 2 ^ 63

/-- Wrapping `i64` addition (`counter += delta` in a release build). -/
def i64Add (a b : Int) : Int :=
  wrap64 (a + b)

/-- Little-endian decimal digits of `n`, with an explicit structural fuel so
that the definition computes by reduction; `natDecimalChars` always calls it
with enough fuel. -/
def natDigitsRevFuel : Nat → Nat → List Nat
  | 0, _ => []
  | fuel + 1, n => if n = 0 then [] else n % 10 :: natDigitsRevFuel fuel (n / 10)

/-- The ASCII character of a single decimal digit. -/
def digitChar : Nat → Char
  | 0 => '0' | 1 => '1' | 2 => '2' | 3 => '3' | 4 => '4'
  | 5 => '5' | 6 => '6' | 7 => '7' | 8 => '8' | 9 => '9'
  | _ => '*'

/-- Big-endian decimal character representation of a natural number, with no
leading zeros (`"0"` for zero), as produced by Rust's integer formatting. -/
def natDecimalChars (n : Nat) : List Char :=
  if n = 0 then ['0'] else (natDigitsRevFuel n n).reverse.map digitChar

/-- Model of Rust's `i64::to_string()`: canonical decimal digits, preceded by
`-` exactly when the value is negative. -/
def intToDecimalString (x : Int) : String :=
  if x < 0 then String.mk ('-' :: natDecimalChars (-x).toNat)
  else String.mk (natDecimalChars x.toNat)

/-- The body of the `for operand in operands` loop of `CounterMerge::full_merge`:
if the operand parses as an `i64` it is added to the counter (wrapping),
otherwise the counter is unchanged. -/
def counterStep (c : Int) (operand : UserValue) : Int :=
  match parseI64 operand with
  | some delta => i64Add c delta
  | none => c

/-- The `CounterMerge` operator of the source's doc example. Its `full_merge`
initialises the counter from the base value (0 when absent or unparseable),
folds the loop body over the operands oldest to newest, and always returns
`Success` of the decimal string of the counter. It does not override
`partial_merge`, so it inherits the trait default. -/
def CounterMerge : MergeOperator where
  name := "CounterMerge"
  full_merge := fun _key existing_value operands =>
    MergeResult.Success
      (intToDecimalString
        (operands.foldl counterStep ((existing_value.bind parseI64).getD 0)))
  partial_merge := default_partial_merge

/-- Value the spec's words ascribe to a counter full merge for claim C6:
the base value parsed as a signed 64-bit integer (0 if absent or unparseable)
plus the mathematical sum, oldest to newest, of every operand that parses as a
signed 64-bit integer. -/
def counterSpecSum (b : Option UserValue) (ops : List UserValue) : Int :=
  (b.bind parseI64).getD 0 + (ops.filterMap parseI64).sum

/-- C1: for the counter merge operator, `full_merge` with any key, no base
value, and operands `["+3", "+4", "-1"]` (oldest to newest) returns
`Success("6")`. -/
theorem counter_full_merge_example_scenario (k : UserKey) :
    CounterMerge.full_merge k none ["+3", "+4", "-1"] =
      MergeResult.Success "6" := rfl

/-- C2: the default `partial_merge` implementation returns `None` for every
key and every pair of operands, and `CounterMerge`, which does not override
it, never folds operand pairs. -/
theorem default_partial_merge_none (k : UserKey) (l r : UserValue) :
    default_partial_merge k l r = none ∧
      CounterMerge.partial_merge k l r = none :=
  ⟨rfl, rfl⟩

/-- C10: for every key, `CounterMerge.full_merge` with no base value and an
empty operand sequence returns `Success("0")` rather than failing. -/
theorem counter_full_merge_both_empty (k : UserKey) :
    CounterMerge.full_merge k none [] = MergeResult.Success "0" := rfl

/-- Caller-visible views of the arguments after a `full_merge` call.
In the source `full_merge` receives the key, the base value and the operand
slice by shared reference (`&UserKey`, `Option<&UserValue>`, `&[UserValue]`)
and returns a fresh `MergeResult`; the call is embedded as returning the
result together with what the caller observes of each argument afterwards. -/
def full_merge_call (op : MergeOperator) (key : UserKey)
    (existing_value : Option UserValue) (operands : List UserValue) :
    MergeResult × UserKey × Option UserValue × List UserValue :=
  (op.full_merge key existing_value operands, key, existing_value, operands)

/-- C8: `full_merge` never consumes or mutates its inputs: whether the call
returns `Failure` or `Success`, the key, the base value and the full operand
list the caller holds afterwards are exactly the ones passed in. -/
theorem full_merge_preserves_inputs (op : MergeOperator) (k : UserKey)
    (b : Option UserValue) (ops : List UserValue) :
    (full_merge_call op k b ops).2 = (k, b, ops) :=
  rfl

/-- C5: `full_merge` is deterministic. In the embedding an operator's
`full_merge` is a pure function of its arguments (the source's `full_merge`
takes only shared references and returns a value, with no hidden state), so
two invocations on bit-identical inputs return the same `MergeResult` —
hence the same variant and, on `Success`, bit-identical values. In
particular this holds for `CounterMerge` with no base value. -/
theorem full_merge_deterministic (op : MergeOperator) (k k2 : UserKey)
    (b b2 : Option UserValue) (ops ops2 : List UserValue)
    (hk : k = k2) (hb : b = b2) (hops : ops = ops2) :
    op.full_merge k b ops = op.full_merge k2 b2 ops2 := by
  rw [hk, hb, hops]

/-- Witness for C5: two invocations of `CounterMerge.full_merge` on the
bit-identical inputs of the spec's counter scenario agree. -/
theorem full_merge_deterministic_witness :
    CounterMerge.full_merge "k" none ["+3", "+4", "-1"] =
      CounterMerge.full_merge "k" none ["+3", "+4", "-1"] :=
  full_merge_deterministic CounterMerge "k" "k" none none
    ["+3", "+4", "-1"] ["+3", "+4", "-1"] rfl rfl rfl

/-- Folding the counter loop body over the operand list visits exactly the
operands that parse as `i64`: operands that fail to parse leave the counter
unchanged, so filtering them out first gives the same counter. -/
theorem counter_foldl_filter (ops : List UserValue) (c : Int) :
    ops.foldl counterStep c =
      (ops.filter fun o => (parseI64 o).isSome).foldl counterStep c := by
  induction ops generalizing c with
  | nil => rfl
  | cons o t ih =>
    cases h : parseI64 o with
    | none =>
      have hstep : counterStep c o = c := by simp [counterStep, h]
      simp [List.foldl_cons, List.filter_cons, h, hstep, ih]
    | some d =>
      simp [List.foldl_cons, List.filter_cons, h, ih]

/-- C9: `CounterMerge.full_merge` returns `Success` on every input; operands
that do not parse as `i64` are silently skipped (filtering them out first
yields the same result), and a base value that is absent or unparseable is
treated as 0 (filtering out an unparseable base yields the same result). -/
theorem counter_full_merge_total (k : UserKey) (b : Option UserValue)
    (ops : List UserValue) :
    (∃ v, CounterMerge.full_merge k b ops = MergeResult.Success v) ∧
      CounterMerge.full_merge k b ops =
        CounterMerge.full_merge k b (ops.filter fun o => (parseI64 o).isSome) ∧
      CounterMerge.full_merge k (b.filter fun bv => (parseI64 bv).isSome) ops =
        CounterMerge.full_merge k b ops := by
  refine ⟨⟨_, rfl⟩, ?_, ?_⟩
  · show MergeResult.Success _ = MergeResult.Success _
    rw [counter_foldl_filter]
  · cases b with
    | none => rfl
    | some bv =>
      cases h : parseI64 bv with
      | none => simp [CounterMerge, Option.filter, h]
      | some d => simp [CounterMerge, Option.filter, h]

/-- Counterexample for C4: on the malformed operand list `["abc"]` (with no
base value) `CounterMerge.full_merge` returns `Success("0")`, not `Failure`:
the unparseable operand is skipped, so the claimed `Failure` outcome is
false. -/
theorem counter_full_merge_malformed_cex :
    CounterMerge.full_merge "k" none ["abc"] = MergeResult.Success "0" ∧
      (CounterMerge.full_merge "k" none ["abc"] = MergeResult.Failure) = False :=
  ⟨rfl, eq_false (by decide)⟩

/-- C4 (amended): if the operand list contains a malformed value the operator
cannot parse, `CounterMerge.full_merge` skips it and still returns `Success`,
and re-invoking with the same unmodified inputs returns the identical
result. -/
theorem counter_full_merge_malformed (k : UserKey) (b : Option UserValue)
    (ops : List UserValue) (_h : ∃ o ∈ ops, parseI64 o = none) :
    (∃ v, CounterMerge.full_merge k b ops = MergeResult.Success v) ∧
      CounterMerge.full_merge k b ops = CounterMerge.full_merge k b ops :=
  ⟨⟨_, rfl⟩, rfl⟩

/-- Witness for the amended C4: the list `["abc", "+3"]` contains the
malformed operand `"abc"`, and the merge succeeds and is repeatable. -/
theorem counter_full_merge_malformed_witness :
    (∃ o ∈ ["abc", "+3"], parseI64 o = none) ∧
      (∃ v, CounterMerge.full_merge "k" none ["abc", "+3"] =
          MergeResult.Success v) ∧
        CounterMerge.full_merge "k" none ["abc", "+3"] =
          CounterMerge.full_merge "k" none ["abc", "+3"] :=
  ⟨⟨"abc", by decide, by decide⟩,
    counter_full_merge_malformed "k" none ["abc", "+3"]
      ⟨"abc", by decide, by decide⟩⟩

/-- Counterexample for C3: `CounterMerge` does not override `partial_merge`,
so it inherits the trait default and `partial_merge("+3", "+4")` returns
`None`, not `Some("+7")` as claimed. -/
theorem counter_partial_merge_cex :
    CounterMerge.partial_merge "k" "+3" "+4" = none ∧
      (CounterMerge.partial_merge "k" "+3" "+4" = some "+7") = False :=
  ⟨rfl, eq_false (by decide)⟩

/-- C3 (amended): for the counter merge operator, `partial_merge` of the
adjacent operands `"+3"` and `"+4"` returns `None` (the inherited default
declines to fold), while `full_merge` with no base value and operands
`["+7", "-1"]` returns `Success("6")` as claimed. -/
theorem counter_partial_then_full (k : UserKey) :
    CounterMerge.partial_merge k "+3" "+4" = none ∧
      CounterMerge.full_merge k none ["+7", "-1"] = MergeResult.Success "6" :=
  ⟨rfl, rfl⟩

/-- The two's-complement reduction always lands in the `i64` range. -/
theorem wrap64_bounds (x : Int) : i64Min ≤ wrap64 x ∧ wrap64 x ≤ i64Max := by
  unfold wrap64 i64Min i64Max
  have h1 : 0 ≤ (x + 2 ^ 63) % 2 ^ 64 := Int.emod_nonneg _ (by norm_num)
  have h2 : (x + 2 ^ 63) % 2 ^ 64 < 2 ^ 64 := Int.emod_lt_of_pos _ (by norm_num)
  omega

/-- The two's-complement reduction fixes values already in the `i64` range. -/
theorem wrap64_eq_self (x : Int) (hmin : i64Min ≤ x) (hmax : x ≤ i64Max) :
    wrap64 x = x := by
  unfold wrap64 at *
  unfold i64Min at hmin
  unfold i64Max at hmax
  have h : (x + 2 ^ 63) % 2 ^ 64 = x + 2 ^ 63 :=
    Int.emod_eq_of_lt (by omega) (by omega)
  omega

/-- Reducing the left summand first does not change a wrapped sum. -/
theorem wrap64_add_left (a b : Int) : wrap64 (wrap64 a + b) = wrap64 (a + b) := by
  unfold wrap64
  omega

/-- Reducing the right summand first does not change a wrapped sum. -/
theorem wrap64_add_right (a b : Int) : wrap64 (a + wrap64 b) = wrap64 (a + b) := by
  unfold wrap64
  omega

/-- A value accepted by the digits-and-range check lies in the `i64` range. -/
theorem parseSignedDigits_range (neg : Bool) (ds : List Char) (v : Int)
    (h : parseSignedDigits neg ds = some v) : i64Min ≤ v ∧ v ≤ i64Max := by
  unfold parseSignedDigits at h
  split at h
  · cases h
  · split at h
    · split at h
      · obtain rfl : signedVal neg ds = v := Option.some.inj h
        assumption
      · cases h
    · cases h

/-- A value produced by the `i64` parser lies in the `i64` range. -/
theorem parseI64Chars_range (cs : List Char) (v : Int)
    (h : parseI64Chars cs = some v) : i64Min ≤ v ∧ v ≤ i64Max := by
  cases cs with
  | nil => cases h
  | cons c rest =>
    simp only [parseI64Chars] at h
    split at h
    · exact parseSignedDigits_range true rest v h
    · split at h
      · exact parseSignedDigits_range false rest v h
      · exact parseSignedDigits_range false (c :: rest) v h

/-- A value produced by the `i64` parser lies in the `i64` range. -/
theorem parseI64_range (s : String) (v : Int) (h : parseI64 s = some v) :
    i64Min ≤ v ∧ v ≤ i64Max :=
  parseI64Chars_range s.data v h

/-- The counter loop, started from any in-range counter, computes the
two's-complement reduction of the mathematical sum of the counter and all
operands that parse as `i64`. -/
theorem counter_foldl_wrap (ops : List UserValue) (c : Int)
    (hmin : i64Min ≤ c) (hmax : c ≤ i64Max) :
    ops.foldl counterStep c = wrap64 (c + (ops.filterMap parseI64).sum) := by
  induction ops generalizing c with
  | nil => simpa using (wrap64_eq_self c hmin hmax).symm
  | cons o t ih =>
    cases h : parseI64 o with
    | none =>
      have hstep : counterStep c o = c := by simp [counterStep, h]
      simp [List.foldl_cons, hstep, List.filterMap_cons, h, ih c hmin hmax]
    | some d =>
      have hstep : counterStep c o = wrap64 (c + d) := by
        simp [counterStep, h, i64Add]
      have hb := wrap64_bounds (c + d)
      rw [List.foldl_cons, hstep, ih _ hb.1 hb.2, wrap64_add_left]
      simp [List.filterMap_cons, h]
      ring_nf

/-- The initial counter of `CounterMerge.full_merge` (parsed base value or 0)
lies in the `i64` range. -/
theorem counter_init_range (b : Option UserValue) :
    i64Min ≤ (b.bind parseI64).getD 0 ∧ (b.bind parseI64).getD 0 ≤ i64Max := by
  cases hb : b.bind parseI64 with
  | none =>
    simp only [Option.getD_none]
    constructor <;> [unfold i64Min; unfold i64Max] <;> norm_num
  | some d =>
    simp only [Option.getD_some]
    cases b with
    | none => simp at hb
    | some bv => exact parseI64_range bv d (by simpa using hb)

/-- Counterexample for C6: with no base value and operands
`["9223372036854775807", "1"]` the `i64` counter overflows and wraps, so
`CounterMerge.full_merge` returns `Success("-9223372036854775808")` while the
claim's mathematical base-plus-sum formula demands
`Success("9223372036854775808")`. -/
theorem counter_full_merge_formula_cex :
    CounterMerge.full_merge "k" none ["9223372036854775807", "1"] =
        MergeResult.Success "-9223372036854775808" ∧
      (CounterMerge.full_merge "k" none ["9223372036854775807", "1"] =
          MergeResult.Success
            (intToDecimalString
              (counterSpecSum none ["9223372036854775807", "1"]))) = False :=
  ⟨by decide, eq_false (by decide)⟩

/-- C6 (amended): `full_merge` treats the base value as logically preceding
all operands and applies operands strictly oldest to newest: for every key,
optional base value and operand sequence, `CounterMerge.full_merge` returns
`Success` of the decimal string of the two's-complement (wrapping `i64`)
reduction of: the base value parsed as `i64` (0 if absent or unparseable)
plus the mathematical sum, oldest to newest, of every operand that parses as
`i64`. -/
theorem counter_full_merge_formula (k : UserKey) (b : Option UserValue)
    (ops : List UserValue) :
    CounterMerge.full_merge k b ops =
      MergeResult.Success (intToDecimalString (wrap64 (counterSpecSum b ops))) := by
  have hc := counter_init_range b
  show MergeResult.Success _ = _
  rw [counter_foldl_wrap ops _ hc.1 hc.2]
  rfl

/-- Value of a little-endian decimal digit list. -/
def ofDigitsLE : List Nat → Nat
  | [] => 0
  | d :: t => d + 10 * ofDigitsLE t

/-- With enough fuel, the little-endian digits of `n` evaluate back to `n`. -/
theorem ofDigitsLE_natDigitsRevFuel (fuel : Nat) :
    ∀ n : Nat, n ≤ fuel → ofDigitsLE (natDigitsRevFuel fuel n) = n := by
  induction fuel with
  | zero =>
    intro n hf
    have hn : n = 0 := Nat.le_zero.mp hf
    subst hn
    rfl
  | succ fuel ih =>
    intro n hf
    by_cases hn : n = 0
    · subst hn
      rfl
    · have hdiv : n / 10 ≤ fuel := by
        have := Nat.div_lt_self (Nat.pos_of_ne_zero hn) (by norm_num : 1 < 10)
        omega
      simp only [natDigitsRevFuel, if_neg hn, ofDigitsLE, ih (n / 10) hdiv]
      omega

/-- Every entry produced by the little-endian digit extraction is a digit. -/
theorem natDigitsRevFuel_lt_ten (fuel : Nat) :
    ∀ n : Nat, ∀ d ∈ natDigitsRevFuel fuel n, d < 10 := by
  induction fuel with
  | zero =>
    intro n d hd
    cases hd
  | succ fuel ih =>
    intro n d hd
    by_cases hn : n = 0
    · subst hn
      cases hd
    · simp only [natDigitsRevFuel, if_neg hn, List.mem_cons] at hd
      rcases hd with rfl | hd
      · exact Nat.mod_lt _ (by norm_num)
      · exact ih (n / 10) d hd

/-- A nonzero number has at least one digit. -/
theorem natDigitsRevFuel_ne_nil (fuel n : Nat) (hn : n ≠ 0) (hf : n ≤ fuel) :
    natDigitsRevFuel fuel n ≠ [] := by
  cases fuel with
  | zero => omega
  | succ fuel => simp [natDigitsRevFuel, hn]

/-- ASCII code of a digit character. -/
theorem digitChar_toNat (d : Nat) (hd : d < 10) :
    (digitChar d).toNat = 48 + d := by
  interval_cases d <;> rfl

/-- Digit characters satisfy `Char.isDigit`. -/
theorem digitChar_isDigit (d : Nat) (hd : d < 10) :
    (digitChar d).isDigit = true := by
  interval_cases d <;> rfl

/-- Appending one character multiplies the accumulated value by 10. -/
theorem digitsToNat_append_one (A : List Char) (c : Char) :
    digitsToNat (A ++ [c]) = 10 * digitsToNat A + (c.toNat - 48) := by
  unfold digitsToNat
  rw [List.foldl_append]
  rfl

/-- Reading the reversed digit characters big-endian recovers the value of
the little-endian digit list. -/
theorem digitsToNat_reverse_map (L : List Nat) (hL : ∀ d ∈ L, d < 10) :
    digitsToNat (L.reverse.map digitChar) = ofDigitsLE L := by
  induction L with
  | nil => rfl
  | cons d t ih =>
    have hd : d < 10 := hL d (List.mem_cons_self d t)
    have ht : ∀ x ∈ t, x < 10 := fun x hx => hL x (List.mem_cons_of_mem d hx)
    have hshape : ((d :: t).reverse.map digitChar)
        = t.reverse.map digitChar ++ [digitChar d] := by simp
    rw [hshape, digitsToNat_append_one, ih ht, digitChar_toNat d hd]
    simp only [ofDigitsLE]
    omega

/-- Parsing the canonical decimal characters of `n` recovers `n`. -/
theorem digitsToNat_natDecimalChars (n : Nat) :
    digitsToNat (natDecimalChars n) = n := by
  by_cases hn : n = 0
  · subst hn
    rfl
  · rw [natDecimalChars, if_neg hn,
      digitsToNat_reverse_map _ (natDigitsRevFuel_lt_ten n n),
      ofDigitsLE_natDigitsRevFuel n n le_rfl]

/-- The canonical decimal characters are all ASCII digits. -/
theorem natDecimalChars_all_digits (n : Nat) :
    (natDecimalChars n).all Char.isDigit = true := by
  by_cases hn : n = 0
  · subst hn
    rfl
  · rw [natDecimalChars, if_neg hn, List.all_eq_true]
    intro c hc
    simp only [List.mem_map, List.mem_reverse] at hc
    obtain ⟨d, hd, rfl⟩ := hc
    exact digitChar_isDigit d (natDigitsRevFuel_lt_ten n n d hd)

/-- The canonical decimal character list is never empty. -/
theorem natDecimalChars_ne_nil (n : Nat) : natDecimalChars n ≠ [] := by
  by_cases hn : n = 0
  · subst hn
    simp [natDecimalChars]
  · rw [natDecimalChars, if_neg hn]
    intro hcontr
    apply natDigitsRevFuel_ne_nil n n hn le_rfl
    have hlen := congrArg List.length hcontr
    simp at hlen
    exact hlen

/-- Parsing after a leading `-` dispatches to the negative digits parser. -/
theorem parseI64Chars_minus (ds : List Char) :
    parseI64Chars ('-' :: ds) = parseSignedDigits true ds := by
  simp [parseI64Chars]

/-- Parsing after a leading `+` dispatches to the positive digits parser. -/
theorem parseI64Chars_plus (ds : List Char) :
    parseI64Chars ('+' :: ds) = parseSignedDigits false ds := by
  simp [parseI64Chars]

/-- The digits parser accepts the canonical decimal characters of `n` and
returns `-n`, provided `-n` is not below the `i64` minimum. -/
theorem parseSignedDigits_neg_decimal (n : Nat) (hmin : i64Min ≤ -(n : Int)) :
    parseSignedDigits true (natDecimalChars n) = some (-(n : Int)) := by
  have hne : (natDecimalChars n).isEmpty = false := by
    cases hnd : natDecimalChars n with
    | nil => exact absurd hnd (natDecimalChars_ne_nil n)
    | cons a t => rfl
  have hsv : signedVal true (natDecimalChars n) = -(n : Int) := by
    simp [signedVal, digitsToNat_natDecimalChars]
  unfold parseSignedDigits
  rw [if_neg (by simp [hne]), if_pos (natDecimalChars_all_digits n), hsv,
    if_pos ⟨hmin, by unfold i64Max; omega⟩]

/-- The digits parser accepts the canonical decimal characters of `n` and
returns `n`, provided `n` is not above the `i64` maximum. -/
theorem parseSignedDigits_pos_decimal (n : Nat) (hmax : (n : Int) ≤ i64Max) :
    parseSignedDigits false (natDecimalChars n) = some (n : Int) := by
  have hne : (natDecimalChars n).isEmpty = false := by
    cases hnd : natDecimalChars n with
    | nil => exact absurd hnd (natDecimalChars_ne_nil n)
    | cons a t => rfl
  have hsv : signedVal false (natDecimalChars n) = (n : Int) := by
    simp [signedVal, digitsToNat_natDecimalChars]
  unfold parseSignedDigits
  rw [if_neg (by simp [hne]), if_pos (natDecimalChars_all_digits n), hsv,
    if_pos ⟨by unfold i64Min; omega, hmax⟩]

/-- Format an `i64` as an operand with an explicit sign (`+7`, `-5`), the
shape the spec's counter scenario uses for folded operands; it re-parses to
the same value. -/
def formatSignedI64 (s : Int) : String :=
  if s < 0 then String.mk ('-' :: natDecimalChars (-s).toNat)
  else String.mk ('+' :: natDecimalChars s.toNat)

/-- Round trip: an in-range `i64` formatted with an explicit sign parses back
to itself. -/
theorem parseI64_formatSignedI64 (s : Int) (hmin : i64Min ≤ s)
    (hmax : s ≤ i64Max) : parseI64 (formatSignedI64 s) = some s := by
  unfold parseI64 formatSignedI64
  by_cases hs : s < 0
  · rw [if_pos hs]
    show parseI64Chars ('-' :: natDecimalChars (-s).toNat) = some s
    rw [parseI64Chars_minus,
      parseSignedDigits_neg_decimal (-s).toNat
        (by rw [Int.toNat_of_nonneg (by omega)]; omega),
      Int.toNat_of_nonneg (by omega : (0 : Int) ≤ -s)]
    rw [neg_neg]
  · rw [if_neg hs]
    show parseI64Chars ('+' :: natDecimalChars s.toNat) = some s
    rw [parseI64Chars_plus,
      parseSignedDigits_pos_decimal s.toNat
        (by rw [Int.toNat_of_nonneg (by omega)]; exact hmax),
      Int.toNat_of_nonneg (by omega : (0 : Int) ≤ s)]

/-- Modelled from the spec: no operator under `src` overrides
`partial_merge` (the `CounterMerge` doc example inherits the trait default),
but the spec's counter scenario — adjacent partial merge of `"+3"` and
`"+4"` yields `Some("+7")` — describes a counter partial merge. It parses
both operands as `i64` deltas, emits their wrapping `i64` sum as a single
explicitly-signed operand, and declines (returns `None`) when either operand
does not parse. -/
def counterPartialMerge (_key : UserKey) (left right : UserValue) :
    Option UserValue :=
  match parseI64 left, parseI64 right with
  | some dl, some dr => some (formatSignedI64 (i64Add dl dr))
  | _, _ => none

/-- Folding the counter partial merge preserves the loop accumulator: merging
the folded operand into any counter equals merging the two original operands
in order. -/
theorem counterStep_partial_merge (k : UserKey) (l r m : UserValue)
    (h : counterPartialMerge k l r = some m) (c : Int) :
    counterStep (counterStep c l) r = counterStep c m := by
  unfold counterPartialMerge at h
  cases hl : parseI64 l with
  | none =>
    cases hr : parseI64 r <;> simp [hl, hr] at h
  | some dl =>
    cases hr : parseI64 r with
    | none => simp [hl, hr] at h
    | some dr =>
      simp only [hl, hr] at h
      obtain rfl : formatSignedI64 (i64Add dl dr) = m := Option.some.inj h
      have hb : i64Min ≤ i64Add dl dr ∧ i64Add dl dr ≤ i64Max :=
        wrap64_bounds (dl + dr)
      have hm : parseI64 (formatSignedI64 (i64Add dl dr)) = some (i64Add dl dr) :=
        parseI64_formatSignedI64 _ hb.1 hb.2
      simp only [counterStep, hl, hr, hm]
      show i64Add (i64Add c dl) dr = i64Add c (i64Add dl dr)
      unfold i64Add
      rw [wrap64_add_left, wrap64_add_right, add_assoc]

/-- C7 (for the counter operator, with the spec-modelled partial merge):
if `partial_merge` folds the adjacent operands `(l, r)` into `m`, then a
full merge of any sequence containing `(l, r)` adjacently, with any key and
any optional base value, equals the full merge of the same sequence with
`(l, r)` replaced in place by `m`. -/
theorem counter_partial_merge_assoc (k : UserKey) (b : Option UserValue)
    (front back : List UserValue) (l r m : UserValue)
    (h : counterPartialMerge k l r = some m) :
    CounterMerge.full_merge k b (front ++ l :: r :: back) =
      CounterMerge.full_merge k b (front ++ m :: back) := by
  show MergeResult.Success _ = MergeResult.Success _
  congr 2
  rw [List.foldl_append, List.foldl_append, List.foldl_cons, List.foldl_cons,
    List.foldl_cons, counterStep_partial_merge k l r m h]

/-- Witness for C7: folding `"+3"` and `"+4"` into `"+7"` inside the sequence
`["+1", "+3", "+4", "-1"]` leaves the full merge unchanged. -/
theorem counter_partial_merge_assoc_witness :
    counterPartialMerge "k" "+3" "+4" = some "+7" ∧
      CounterMerge.full_merge "k" none (["+1"] ++ "+3" :: "+4" :: ["-1"]) =
        CounterMerge.full_merge "k" none (["+1"] ++ "+7" :: ["-1"]) :=
  ⟨by decide,
    counter_partial_merge_assoc "k" none ["+1"] ["-1"] "+3" "+4" "+7" (by decide)⟩
